import Mathlib

/-!
Verification development for the kubegraph core of the noah-cloud repository:
the lazy tabular frame abstraction, the content-addressed graph data model,
the in-memory graph store, the problem specification, and the simulator runner.

The Rust sources embedded here:
  crates/kubegraph/api/src/frame/mod.rs      (LazyFrame, DataFrame, LazySlice)
  crates/kubegraph/api/src/graph.rs          (NetworkGraphRow, NetworkEdgeKey, NetworkNodeKey)
  crates/kubegraph/api/src/problem/mod.rs    (ProblemSpec, MAX_CAPACITY)
  crates/kubegraph/graph/memory/src/lib.rs   (in-memory NetworkGraphDB)
  crates/kubegraph/runner/simulator/src/lib.rs (NetworkRunner::execute)

The polars engine itself is an external library; its documented dataframe
semantics (cross join, with_column, literal columns) are modelled as eager
operations on lists of rows.
-/

/-- A cell value of a materialized dataframe column: the polars scalar types
used by the embedded operations (strings, 64-bit integers, booleans, null). -/
inductive PValue where
  | str (s : String)
  | int (n : Int)
  | bool (b : Bool)
  | null
deriving DecidableEq, Repr

/-- A row of a dataframe: an association list from column names to values. -/
abbrev Row : Type := List (String × PValue)

/-- A concrete (materialized) polars dataframe, modelled as its list of rows. -/
abbrev PolarsFrame : Type := List Row

/-- Look up the value of column `name` in a row (first binding wins). -/
def rowGet : Row → String → Option PValue
  | [], _ => none
  | (m, x) :: t, name => if m = name then some x else rowGet t name

/-- Set column `name` of a row to `v`: replace the first existing binding,
or append a new one — the semantics of polars `with_column` per row. -/
def rowSet : Row → String → PValue → Row
  | [], name, v => [(name, v)]
  | (m, x) :: t, name, v =>
    if m = name then (m, v) :: t else (m, x) :: rowSet t name v

/-- Schema of the graph metadata: the column-name mapping destructured by
`LazyFrame::fabric` in frame/mod.rs (fields capacity, flow, function, name,
sink, src, supply, unit_cost, each an actual column name). -/
structure GraphMetadata where
  capacity : String
  flow : String
  function : String
  name : String
  sink : String
  src : String
  supply : String
  unit_cost : String
deriving DecidableEq, Repr

/-- The standard metadata schema, used as the default column mapping. -/
def GraphMetadata.standard : GraphMetadata where
  capacity := "capacity"
  flow := "flow"
  function := "function"
  name := "name"
  sink := "sink"
  src := "src"
  supply := "supply"
  unit_cost := "unit_cost"

/-- Problem specification from problem/mod.rs: metadata schema plus the
verbosity toggle (default false). -/
structure ProblemSpec where
  metadata : GraphMetadata
  verbose : Bool := false
deriving DecidableEq, Repr

/-- The capacity ceiling from problem/mod.rs: `u64::MAX >> 32`. -/
def ProblemSpec.MAX_CAPACITY : Nat := (2 ^ 64 - 1) >>> 32

/-- Function metadata from function.rs as destructured by `LazyFrame::alias`:
just the function name. -/
structure FunctionMetadata where
  name : String
deriving DecidableEq, Repr

/-- Modelled from the spec: the data type tag taken by `cast` (the graph holds
exactly node tables and edge tables); the defining module is not among the
sources. No embedded claim depends on its inhabitants. -/
inductive GraphDataType where
  | edge
  | node
deriving DecidableEq, Repr

/-- Modelled from the spec: the analyzer-refined, solver-ready form of a raw
problem (spec §4.5); the defining module is not among the sources. Only its
presence as an argument of `cast` matters to the embedded claims. -/
structure VirtualProblem where
  problem : ProblemSpec
deriving DecidableEq, Repr

/-- A minimal model of a polars lazy expression, enough for the `LazySlice`
values produced and consumed by the embedded frame operations. -/
inductive PExpr where
  | all
  | col (name : String)
  | litInt (n : Int)
  | litBool (b : Bool)
  | litStr (s : String)
deriving DecidableEq, Repr

/-- A lazy column/selector over one backend: `LazySlice` of frame/mod.rs.
The only concrete backend compiled in the sources is polars. -/
inductive LazySlice where
  | polars (e : PExpr)
deriving DecidableEq, Repr

/-- The backend-polymorphic lazy frame of frame/mod.rs: the `Empty` sentinel
(no backend configured) or a polars-backed frame. -/
inductive LazyFrame where
  | empty
  | polars (df : PolarsFrame)
deriving DecidableEq

/-- The materialized dataframe of frame/mod.rs: `Empty` or a polars table. -/
inductive DataFrame where
  | empty
  | polars (df : PolarsFrame)
deriving DecidableEq

/-- Evaluate a lazy expression against one row: columns look up the row,
literals are constants, and a bare `all` has no single-cell meaning (null). -/
def evalPExpr (r : Row) : PExpr → PValue
  | .all => .null
  | .col name => (rowGet r name).getD .null
  | .litInt n => .int n
  | .litBool b => .bool b
  | .litStr s => .str s

/-- Modelled from the spec: concatenation of two same-backend polars frames
(frame/polars.rs is not among the sources); an associative union of rows. -/
def polarsConcat (a b : PolarsFrame) : Except String PolarsFrame :=
  .ok (a ++ b)

/-- Modelled from the spec: the polars `cast` of frame/polars.rs (not among
the sources) re-types a frame's columns; no embedded claim depends on its
behaviour, so it is modelled as schema-preserving. -/
def polarsCast (df : PolarsFrame) (_ty : GraphDataType) (_origin : GraphMetadata)
    (_problem : VirtualProblem) : PolarsFrame :=
  df

/-- Mirror of `LazyFrame::all` (frame/mod.rs): a selector for all columns;
fails on the `Empty` frame. -/
def LazyFrame.all : LazyFrame → Except String LazySlice
  | .empty => .error "cannot get all columns from empty lazyframe"
  | .polars _ => .ok (.polars .all)

/-- Mirror of `LazyFrame::cast` (frame/mod.rs): re-type the frame; the
`Empty` frame is returned unchanged. -/
def LazyFrame.cast (lf : LazyFrame) (ty : GraphDataType) (origin : GraphMetadata)
    (problem : VirtualProblem) : LazyFrame :=
  match lf with
  | .empty => .empty
  | .polars df => .polars (polarsCast df ty origin problem)

/-- Mirror of `LazyFrame::collect` (frame/mod.rs): materialize the plan;
`Empty` collects to the empty dataframe. -/
def LazyFrame.collect : LazyFrame → Except String DataFrame
  | .empty => .ok .empty
  | .polars df => .ok (.polars df)

/-- Mirror of `LazyFrame::concat` (frame/mod.rs): `Empty` is passed through
as the identity; two polars frames are concatenated by the backend. -/
def LazyFrame.concat : LazyFrame → LazyFrame → Except String LazyFrame
  | .empty, .empty => .ok .empty
  | .empty, value => .ok value
  | value, .empty => .ok value
  | .polars a, .polars b => (polarsConcat a b).map .polars

/-- Mirror of `LazyFrame::get_column` (frame/mod.rs): a selector for one
column; fails on the `Empty` frame. -/
def LazyFrame.get_column (lf : LazyFrame) (name : String) : Except String LazySlice :=
  match lf with
  | .empty => .error ("cannot get column from empty lazyframe: " ++ name)
  | .polars _ => .ok (.polars (.col name))

/-- The per-row effect of `select_polars_edge_side` in `LazyFrame::fabric`:
the node-name column is renamed to `side`, and every other column is kept
under the name `side ++ "."` followed by its own name; a row without the
node-name column is a schema error (surfaced eagerly in this model). -/
def selectEdgeSideRow (name side : String) (r : Row) : Option Row :=
  (rowGet r name).map fun v =>
    (side, v) :: (r.filter fun p => p.1 ≠ name).map fun p => (side ++ "." ++ p.1, p.2)

/-- Apply `selectEdgeSideRow` to every row of a node frame, failing if any
row lacks the node-name column. -/
def selectEdgeSide (nodes : PolarsFrame) (name side : String) :
    Option PolarsFrame :=
  match nodes with
  | [] => some []
  | r :: t => do
    let r' ← selectEdgeSideRow name side r
    let t' ← selectEdgeSide t name side
    pure (r' :: t')

/-- The polars cross join: every row of `a` paired with every row of `b`,
the paired rows concatenated column-wise. -/
def crossJoin (a b : PolarsFrame) : PolarsFrame :=
  match a with
  | [] => []
  | x :: t => b.map (fun y => x ++ y) ++ crossJoin t b

/-- Stamp a literal value onto column `name` of every row: polars
`with_column(lit(v).alias(name))`. -/
def withColumnLit (df : PolarsFrame) (name : String) (v : PValue) : PolarsFrame :=
  df.map fun r => rowSet r name v

/-- Mirror of `LazyFrame::fabric` (frame/mod.rs): build the complete relation
of the node set against itself — rename the node-name column into `src`/`sink`
sides, cross-join the two sides, and stamp `MAX_CAPACITY` onto the capacity
column. Fails on the `Empty` frame; a node frame without the node-name column
is a schema error (raised at `collect` time by polars, eagerly here). -/
def LazyFrame.fabric (lf : LazyFrame) (problem : ProblemSpec) :
    Except String LazyFrame :=
  match lf with
  | .empty => .error "cannot get fabric from empty lazyframe"
  | .polars nodes =>
    match selectEdgeSide nodes problem.metadata.name problem.metadata.src,
        selectEdgeSide nodes problem.metadata.name problem.metadata.sink with
    | some a, some b =>
      .ok (.polars (withColumnLit (crossJoin a b) problem.metadata.capacity
        (.int ProblemSpec.MAX_CAPACITY)))
    | _, _ => .error "fabric: node frame has no node-name column"

/-- Mirror of `LazyFrame::alias` (frame/mod.rs): add a literal column holding
the function name under column `key`; fails on the `Empty` frame. -/
def LazyFrame.alias (lf : LazyFrame) (key : String) (metadata : FunctionMetadata) :
    Except String LazyFrame :=
  match lf with
  | .empty => .error ("cannot make an alias to empty lazyframe: " ++ key)
  | .polars df => .ok (.polars (withColumnLit df key (.str metadata.name)))

/-- Mirror of `LazyFrame::insert_column` (frame/mod.rs): add the column
computed by a lazy expression; fails on the `Empty` frame. -/
def LazyFrame.insert_column (lf : LazyFrame) (name : String) (column : LazySlice) :
    Except String LazyFrame :=
  match lf, column with
  | .empty, _ => .error ("cannot fill column into empty lazyframe: " ++ name)
  | .polars df, .polars e =>
    .ok (.polars (df.map fun r => rowSet r name (evalPExpr r e)))

/-- Mirror of `LazyFrame::apply_filter` (frame/mod.rs): keep the rows on
which the predicate expression evaluates to true; fails on the `Empty`
frame. -/
def LazyFrame.apply_filter (lf : LazyFrame) (filter : LazySlice) :
    Except String LazyFrame :=
  match lf, filter with
  | .empty, _ => .error "cannot apply filter into empty lazyframe"
  | .polars df, .polars e =>
    .ok (.polars (df.filter fun r => evalPExpr r e = .bool true))

/-- The boolean feature value from vm.rs as used by the frame operations
(`Feature::into_inner` yields the wrapped boolean). -/
structure Feature where
  into_inner : Bool
deriving DecidableEq, Repr

/-- The numeric value from vm.rs as used by the frame operations: a finite
numeric scalar (`f64` in the source, whose finite values are rationals;
`Number::into_inner` yields it). -/
structure Number where
  into_inner : Rat
deriving DecidableEq, Repr

/-- Rounding to the nearest integer with ties away from zero: the documented
semantics of Rust `f64::round`, applied by `IntoLazySlice for Number`;
computed as `sign(q) * floor(|q| + 1/2)` in exact integer arithmetic. -/
def roundTiesAway (q : Rat) : Int :=
  let m : Nat := (2 * q.num.natAbs + q.den) / (2 * q.den)
  if 0 ≤ q.num then (m : Int) else -(m : Int)

/-- The saturating Rust `as i64` cast on an exact integer. -/
def i64Sat (n : Int) : Int :=
  max (-(2 ^ 63)) (min n (2 ^ 63 - 1))

/-- Mirror of `IntoLazySlice for Number` (frame/mod.rs): the literal written
for a numeric value is `self.into_inner().round() as i64`. -/
def Number.into_polars (v : Number) : PExpr :=
  .litInt (i64Sat (roundTiesAway v.into_inner))

/-- Mirror of `IntoLazySlice for Feature` (frame/mod.rs): a boolean literal. -/
def Feature.into_polars (v : Feature) : PExpr :=
  .litBool v.into_inner

/-- Mirror of `LazyFrame::fill_column_with_feature` (frame/mod.rs): stamp a
boolean literal onto a column; fails on the `Empty` frame. -/
def LazyFrame.fill_column_with_feature (lf : LazyFrame) (name : String)
    (value : Feature) : Except String LazyFrame :=
  match lf with
  | .empty =>
    .error ("cannot fill column with feature into empty lazyframe: " ++ name)
  | .polars df =>
    .ok (.polars (df.map fun r => rowSet r name (evalPExpr r value.into_polars)))

/-- Mirror of `LazyFrame::fill_column_with_value` (frame/mod.rs): stamp the
rounded numeric literal onto a column; fails on the `Empty` frame. -/
def LazyFrame.fill_column_with_value (lf : LazyFrame) (name : String)
    (value : Number) : Except String LazyFrame :=
  match lf with
  | .empty =>
    .error ("cannot fill column with name into empty lazyframe: " ++ name)
  | .polars df =>
    .ok (.polars (df.map fun r => rowSet r name (evalPExpr r value.into_polars)))

/-- Graph data as consumed by solver and runner: an edges frame and a nodes
frame. -/
structure GraphData (T : Type) where
  edges : T
  nodes : T

/-- Modelled from the spec: the simulator runner's concrete execution over
two polars-backed frames (runner/simulator/src/polars.rs is not among the
sources); a dry run that evaluates the outcome without side effects. -/
def runnerExecutePolars (_edges _nodes : PolarsFrame) (_problem : ProblemSpec) :
    Except String Unit :=
  .ok ()

/-- Mirror of `NetworkRunner::execute` (runner/simulator/src/lib.rs): bail
out when either frame of the graph is the `Empty` variant, otherwise run the
polars simulator. -/
def NetworkRunner.execute (graph : GraphData LazyFrame) (problem : ProblemSpec) :
    Except String Unit :=
  match graph with
  | ⟨.empty, _⟩ | ⟨_, .empty⟩ =>
    .error "cannot execute simulator runner with empty graph"
  | ⟨.polars edges, .polars nodes⟩ => runnerExecutePolars edges nodes problem

/-- True exactly when an `Except` result is an error. -/
def isError : Except String α → Bool
  | .error _ => true
  | .ok _ => false

/-- Modelled from the spec: the scope naming one stored graph instance (spec
§3, the `(kind, namespace, name)` triple); its defining module is not among
the sources. -/
structure GraphScope where
  kind : String
  «namespace» : String
  name : String
deriving DecidableEq, Repr

/-- A named graph as stored: a scope plus its lazy frame (spec §3
`Graph<F> = {scope, data}`). -/
structure Graph where
  scope : GraphScope
  data : LazyFrame
deriving DecidableEq

/-- Modelled from the spec: a graph filter is a predicate on scopes only
(spec §4.3: the predicate tests scope fields, never graph content); its
defining module is not among the sources. -/
structure GraphFilter where
  contains : GraphScope → Bool

/-- The state of the in-memory graph store
(crates/kubegraph/graph/memory/src/lib.rs): the scope-keyed map guarded by
the store's lock, modelled as an association list with unique keys. -/
abbrev NetworkGraphDB : Type := List (GraphScope × Graph)

/-- Map insertion with full replacement of any existing entry for the key:
the semantics of `BTreeMap::insert`. -/
def mapInsert (k : GraphScope) (v : Graph) : NetworkGraphDB → NetworkGraphDB
  | [] => [(k, v)]
  | (m, x) :: t => if m = k then (m, v) :: t else (m, x) :: mapInsert k v t

/-- Map lookup: the semantics of `BTreeMap::get`. -/
def mapLookup (k : GraphScope) : NetworkGraphDB → Option Graph
  | [] => none
  | (m, x) :: t => if m = k then some x else mapLookup k t

/-- Mirror of the store's `get`: a clone of the current graph for the scope,
or absence. -/
def NetworkGraphDB.get (db : NetworkGraphDB) (scope : GraphScope) : Option Graph :=
  mapLookup scope db

/-- Mirror of the store's `insert`: upsert by `graph.scope`, fully replacing
any prior value. -/
def NetworkGraphDB.insert (db : NetworkGraphDB) (graph : Graph) : NetworkGraphDB :=
  mapInsert graph.scope graph db

/-- Mirror of the store's `list`: clones of all stored graphs whose scope
passes the filter; `none` passes everything
(`filter.map(..).unwrap_or(true)`). -/
def NetworkGraphDB.list (db : NetworkGraphDB) (filter : Option GraphFilter) :
    List Graph :=
  (db.filter fun p =>
    match filter with
    | some f => f.contains p.1
    | none => true).map Prod.snd

/-- Mirror of the store's `close`: a no-op for the in-memory backend. -/
def NetworkGraphDB.close (_db : NetworkGraphDB) : Except String Unit :=
  .ok ()

/-- The store reached from the empty store by a sequence of inserts. -/
def buildStore (gs : List Graph) : NetworkGraphDB :=
  gs.foldl NetworkGraphDB.insert []

/-- The reference meaning of last-write-wins: the most recent graph inserted
under scope `s` in the insertion sequence `gs`, if any. -/
def lastWrite (gs : List Graph) (s : GraphScope) : Option Graph :=
  gs.foldl (fun acc g => if g.scope = s then some g else acc) none

theorem mapLookup_mapInsert (l : NetworkGraphDB) (k k' : GraphScope) (v : Graph) :
    mapLookup k (mapInsert k' v l) = if k' = k then some v else mapLookup k l := by
  induction l with
  | nil => by_cases h : k' = k <;> simp [mapInsert, mapLookup, h]
  | cons p t ih =>
    obtain ⟨m, x⟩ := p
    by_cases hmk' : m = k'
    · subst hmk'
      by_cases hk : m = k <;> simp [mapInsert, mapLookup, hk]
    · by_cases hmk : m = k
      · subst hmk
        have hk'm : k' ≠ m := fun h => hmk' h.symm
        simp [mapInsert, mapLookup, hmk', hk'm]
      · simp [mapInsert, mapLookup, hmk', hmk, ih]

theorem mapInsert_cons_eq (t : NetworkGraphDB) (m k : GraphScope) (x v : Graph)
    (h : m = k) : mapInsert k v ((m, x) :: t) = (m, v) :: t := by
  simp [mapInsert, h]

theorem mapInsert_cons_ne (t : NetworkGraphDB) (m k : GraphScope) (x v : Graph)
    (h : ¬m = k) : mapInsert k v ((m, x) :: t) = (m, x) :: mapInsert k v t := by
  simp [mapInsert, h]

theorem mapLookup_cons_eq (t : NetworkGraphDB) (m k : GraphScope) (x : Graph)
    (h : m = k) : mapLookup k ((m, x) :: t) = some x := by
  simp [mapLookup, h]

theorem mapLookup_cons_ne (t : NetworkGraphDB) (m k : GraphScope) (x : Graph)
    (h : ¬m = k) : mapLookup k ((m, x) :: t) = mapLookup k t := by
  simp [mapLookup, h]

theorem mem_keys_mapInsert (l : NetworkGraphDB) (k a : GraphScope) (v : Graph) :
    a ∈ (mapInsert k v l).map Prod.fst ↔ a = k ∨ a ∈ l.map Prod.fst := by
  induction l with
  | nil => simp [mapInsert]
  | cons p t ih =>
    obtain ⟨m, x⟩ := p
    by_cases hmk : m = k
    · subst hmk
      rw [mapInsert_cons_eq t m m x v rfl]
      simp only [List.map_cons, List.mem_cons]
      tauto
    · rw [mapInsert_cons_ne t m k x v hmk]
      simp only [List.map_cons, List.mem_cons, ih]
      tauto

theorem nodup_keys_mapInsert (l : NetworkGraphDB) (k : GraphScope) (v : Graph)
    (h : (l.map Prod.fst).Nodup) : ((mapInsert k v l).map Prod.fst).Nodup := by
  induction l with
  | nil => simp [mapInsert]
  | cons p t ih =>
    obtain ⟨m, x⟩ := p
    simp only [List.map_cons, List.nodup_cons] at h
    by_cases hmk : m = k
    · subst hmk
      rw [mapInsert_cons_eq t m m x v rfl]
      simp only [List.map_cons, List.nodup_cons]
      exact ⟨h.1, h.2⟩
    · rw [mapInsert_cons_ne t m k x v hmk]
      simp only [List.map_cons, List.nodup_cons]
      refine ⟨fun hc => ?_, ih h.2⟩
      rcases (mem_keys_mapInsert t k m v).mp hc with h1 | h2
      · exact hmk h1
      · exact h.1 h2

theorem scope_consistent_mapInsert (l : NetworkGraphDB) (g : Graph)
    (h : ∀ p ∈ l, (p : GraphScope × Graph).2.scope = p.1) :
    ∀ p ∈ mapInsert g.scope g l, (p : GraphScope × Graph).2.scope = p.1 := by
  induction l with
  | nil =>
    intro p hp
    simp only [mapInsert, List.mem_singleton] at hp
    subst hp
    rfl
  | cons q t ih =>
    obtain ⟨m, x⟩ := q
    have hq : x.scope = m := h (m, x) (List.mem_cons_self _ _)
    have ht : ∀ p ∈ t, (p : GraphScope × Graph).2.scope = p.1 :=
      fun p hp => h p (List.mem_cons_of_mem _ hp)
    intro p hp
    by_cases hmk : m = g.scope
    · rw [mapInsert_cons_eq t m g.scope x g hmk] at hp
      simp only [List.mem_cons] at hp
      rcases hp with rfl | hp
      · exact hmk.symm
      · exact ht p hp
    · rw [mapInsert_cons_ne t m g.scope x g hmk] at hp
      simp only [List.mem_cons] at hp
      rcases hp with rfl | hp
      · exact hq
      · exact ih ht p hp

theorem lastWrite_aux (gs : List Graph) (s : GraphScope) (a : Option Graph) :
    gs.foldl (fun acc g => if g.scope = s then some g else acc) a =
      match lastWrite gs s with
      | some g => some g
      | none => a := by
  induction gs generalizing a with
  | nil => rfl
  | cons g t ih =>
    show t.foldl _ (if g.scope = s then some g else a) = _
    rw [ih]
    have hl : lastWrite (g :: t) s =
        match lastWrite t s with
        | some g' => some g'
        | none => if g.scope = s then some g else none := by
      show t.foldl _ (if g.scope = s then some g else none) = _
      rw [ih]
    rw [hl]
    cases lastWrite t s with
    | none => by_cases hg : g.scope = s <;> simp [hg]
    | some g' => rfl

theorem get_buildStore (gs : List Graph) (s : GraphScope) :
    (buildStore gs).get s = lastWrite gs s := by
  have main : ∀ (db : NetworkGraphDB),
      (gs.foldl NetworkGraphDB.insert db).get s =
        match lastWrite gs s with
        | some g => some g
        | none => db.get s := by
    induction gs with
    | nil => intro db; rfl
    | cons g t ih =>
      intro db
      show (t.foldl NetworkGraphDB.insert (db.insert g)).get s = _
      rw [ih]
      have hins : (db.insert g).get s =
          if g.scope = s then some g else db.get s := by
        show mapLookup s (mapInsert g.scope g db) = _
        exact mapLookup_mapInsert db s g.scope g
      have hl : lastWrite (g :: t) s =
          match lastWrite t s with
          | some g' => some g'
          | none => if g.scope = s then some g else none := by
        show t.foldl _ (if g.scope = s then some g else none) = _
        rw [lastWrite_aux]
      rw [hins, hl]
      cases lastWrite t s with
      | none => by_cases hg : g.scope = s <;> simp [hg]
      | some g' => rfl
  show (gs.foldl NetworkGraphDB.insert []).get s = lastWrite gs s
  rw [main []]
  cases lastWrite gs s with
  | none => rfl
  | some g' => rfl

theorem buildStore_nodup_keys (gs : List Graph) :
    ((buildStore gs).map Prod.fst).Nodup := by
  have main : ∀ (db : NetworkGraphDB), (db.map Prod.fst).Nodup →
      ((gs.foldl NetworkGraphDB.insert db).map Prod.fst).Nodup := by
    induction gs with
    | nil => intro db h; exact h
    | cons g t ih =>
      intro db h
      exact ih _ (nodup_keys_mapInsert db g.scope g h)
  exact main [] (by simp)

theorem buildStore_scope_consistent (gs : List Graph) :
    ∀ p ∈ buildStore gs, (p : GraphScope × Graph).2.scope = p.1 := by
  have main : ∀ (db : NetworkGraphDB),
      (∀ p ∈ db, (p : GraphScope × Graph).2.scope = p.1) →
      ∀ p ∈ gs.foldl NetworkGraphDB.insert db,
        (p : GraphScope × Graph).2.scope = p.1 := by
    induction gs with
    | nil => intro db h; exact h
    | cons g t ih =>
      intro db h
      exact ih _ (scope_consistent_mapInsert db g h)
  exact main [] (by simp)

theorem mem_iff_mapLookup (l : NetworkGraphDB) (k : GraphScope) (v : Graph)
    (h : (l.map Prod.fst).Nodup) : (k, v) ∈ l ↔ mapLookup k l = some v := by
  induction l with
  | nil => simp [mapLookup]
  | cons p t ih =>
    obtain ⟨m, x⟩ := p
    simp only [List.map_cons, List.nodup_cons] at h
    by_cases hmk : m = k
    · subst hmk
      rw [mapLookup_cons_eq t m m x rfl]
      simp only [List.mem_cons, Option.some.injEq]
      constructor
      · rintro (hp | hmem)
        · exact (congrArg Prod.snd hp).symm
        · exact absurd (List.mem_map_of_mem Prod.fst hmem) h.1
      · intro hxv
        exact Or.inl (by rw [hxv])
    · rw [mapLookup_cons_ne t m k x hmk]
      simp only [List.mem_cons, ih h.2]
      constructor
      · rintro (hp | hp)
        · exact absurd (congrArg Prod.fst hp).symm hmk
        · exact hp
      · exact Or.inr

theorem list_none_eq_map_snd (db : NetworkGraphDB) :
    db.list none = db.map Prod.snd := by
  show (db.filter fun _ => true).map Prod.snd = db.map Prod.snd
  rw [List.filter_true]

theorem list_some_eq_filter_scope (db : NetworkGraphDB) (f : GraphFilter)
    (h : ∀ p ∈ db, (p : GraphScope × Graph).2.scope = p.1) :
    db.list (some f) = (db.list none).filter fun g => f.contains g.scope := by
  rw [list_none_eq_map_snd]
  show (db.filter fun p => f.contains p.1).map Prod.snd = _
  induction db with
  | nil => rfl
  | cons p t ih =>
    obtain ⟨m, x⟩ := p
    have hx : x.scope = m := h (m, x) (List.mem_cons_self _ _)
    have ht := fun p hp => h p (List.mem_cons_of_mem (m, x) hp)
    by_cases hc : f.contains m = true
    · simp [List.filter_cons, hc, hx, ih ht]
    · simp only [Bool.not_eq_true] at hc
      simp [List.filter_cons, hc, hx, ih ht]

theorem map_scope_eq_keys (db : NetworkGraphDB)
    (h : ∀ p ∈ db, (p : GraphScope × Graph).2.scope = p.1) :
    (db.map Prod.snd).map Graph.scope = db.map Prod.fst := by
  rw [List.map_map]
  exact List.map_congr_left h

theorem mem_buildStore_iff_lastWrite (gs : List Graph) (g' : Graph) :
    g' ∈ (buildStore gs).map Prod.snd ↔ ∃ sc, lastWrite gs sc = some g' := by
  constructor
  · intro hmem
    obtain ⟨p, hp, hsnd⟩ := List.mem_map.mp hmem
    obtain ⟨k, v⟩ := p
    subst hsnd
    refine ⟨k, ?_⟩
    rw [← get_buildStore]
    exact (mem_iff_mapLookup (buildStore gs) k v (buildStore_nodup_keys gs)).mp hp
  · rintro ⟨sc, hsc⟩
    rw [← get_buildStore] at hsc
    have hm := (mem_iff_mapLookup (buildStore gs) sc g'
      (buildStore_nodup_keys gs)).mpr hsc
    exact List.mem_map.mpr ⟨(sc, g'), hm, rfl⟩

/-- C2: for the in-memory graph store, after `insert g` a `get` on `g.scope`
returns a value equal to `g`; `get` on any store reachable by a sequence of
inserts returns the last graph inserted for the scope; `list none` holds
every inserted scope exactly once with the last-inserted graph per scope;
and `list (some f)` returns exactly the stored graphs whose scope satisfies
the filter. (The embedding has value semantics, so the returned graphs are
copies by construction, matching clone-not-alias.) -/
theorem networkGraphDB_store_roundtrip (gs : List Graph) (g g' : Graph)
    (f : GraphFilter) (s : GraphScope) :
    ((buildStore gs).insert g).get g.scope = some g
    ∧ (buildStore gs).get s = lastWrite gs s
    ∧ (((buildStore gs).list none).map Graph.scope).Nodup
    ∧ (g' ∈ (buildStore gs).list none ↔ ∃ sc, lastWrite gs sc = some g')
    ∧ (buildStore gs).list (some f) =
        ((buildStore gs).list none).filter fun gr => f.contains gr.scope := by
  refine ⟨?_, get_buildStore gs s, ?_, ?_, ?_⟩
  · show mapLookup g.scope (mapInsert g.scope g (buildStore gs)) = some g
    rw [mapLookup_mapInsert]
    simp
  · rw [list_none_eq_map_snd,
      map_scope_eq_keys (buildStore gs) (buildStore_scope_consistent gs)]
    exact buildStore_nodup_keys gs
  · rw [list_none_eq_map_snd]
    exact mem_buildStore_iff_lastWrite gs g'
  · exact list_some_eq_filter_scope (buildStore gs) f
      (buildStore_scope_consistent gs)

/-- C3: the `Empty` frame is a two-sided identity for `concat`, and
concatenating two concrete frames is delegated to the single compiled
backend's own concatenation. (The sources compile exactly one concrete
backend, so two concrete frames of different backends cannot be formed;
that clause of the claim is vacuously satisfied.) -/
theorem lazyFrame_concat_identity (g : LazyFrame) (a b : PolarsFrame) :
    LazyFrame.concat .empty g = .ok g
    ∧ LazyFrame.concat g .empty = .ok g
    ∧ LazyFrame.concat .empty .empty = .ok .empty
    ∧ LazyFrame.concat (.polars a) (.polars b) = (polarsConcat a b).map .polars := by
  refine ⟨?_, ?_, rfl, rfl⟩ <;> cases g <;> rfl

/-- C5: the simulator runner fails on a graph whose edges or nodes frame is
the `Empty` variant, returning the empty-graph error without executing. -/
theorem runner_execute_empty_graph (edges nodes : LazyFrame)
    (problem : ProblemSpec) :
    NetworkRunner.execute ⟨.empty, nodes⟩ problem =
        .error "cannot execute simulator runner with empty graph"
    ∧ NetworkRunner.execute ⟨edges, .empty⟩ problem =
        .error "cannot execute simulator runner with empty graph"
    ∧ isError (NetworkRunner.execute ⟨.empty, nodes⟩ problem) = true
    ∧ isError (NetworkRunner.execute ⟨edges, .empty⟩ problem) = true := by
  refine ⟨?_, ?_, ?_, ?_⟩ <;> cases edges <;> cases nodes <;> rfl

/-- C6: every column-level operation of the lazy frame fails with an error on
the `Empty` variant, for every argument value: `all`, `get_column`, `alias`,
`insert_column`, `apply_filter`, `fill_column_with_feature`, and
`fill_column_with_value`. -/
theorem lazyFrame_empty_ops_fail (name key : String) (meta : FunctionMetadata)
    (column filterSlice : LazySlice) (feat : Feature) (num : Number) :
    isError (LazyFrame.all .empty) = true
    ∧ isError (LazyFrame.get_column .empty name) = true
    ∧ isError (LazyFrame.alias .empty key meta) = true
    ∧ isError (LazyFrame.insert_column .empty name column) = true
    ∧ isError (LazyFrame.apply_filter .empty filterSlice) = true
    ∧ isError (LazyFrame.fill_column_with_feature .empty name feat) = true
    ∧ isError (LazyFrame.fill_column_with_value .empty name num) = true := by
  cases column
  cases filterSlice
  exact ⟨rfl, rfl, rfl, rfl, rfl, rfl, rfl⟩

/-- C7: `cast` on the `Empty` frame is a no-op returning `Empty` for every
type, origin metadata, and problem argument, and `collect` on the `Empty`
frame succeeds with the empty materialized table. -/
theorem lazyFrame_cast_collect_empty (ty : GraphDataType)
    (origin : GraphMetadata) (problem : VirtualProblem) :
    LazyFrame.cast .empty ty origin problem = .empty
    ∧ LazyFrame.collect .empty = .ok .empty :=
  ⟨rfl, rfl⟩

/-- C9: the capacity ceiling `u64::MAX >> 32` equals `2^32 - 1`, and its
square still fits in 64 bits, leaving 32 bits of headroom for
solver-internal products. -/
theorem problemSpec_max_capacity :
    ProblemSpec.MAX_CAPACITY = 2 ^ 32 - 1
    ∧ ProblemSpec.MAX_CAPACITY ^ 2 < 2 ^ 64 := by
  constructor <;> decide

theorem rowGet_rowSet (r : Row) (n : String) (v : PValue) :
    rowGet (rowSet r n v) n = some v := by
  induction r with
  | nil => simp [rowSet, rowGet]
  | cons p t ih =>
    obtain ⟨m, x⟩ := p
    by_cases hm : m = n
    · simp [rowSet, rowGet, hm]
    · simp [rowSet, rowGet, hm, ih]

theorem selectEdgeSide_ok (nodes : PolarsFrame) (name side : String)
    (h : ∀ r ∈ nodes, (rowGet r name).isSome = true) :
    ∃ out, selectEdgeSide nodes name side = some out
      ∧ out.length = nodes.length := by
  induction nodes with
  | nil => exact ⟨[], rfl, rfl⟩
  | cons r t ih =>
    have hr : (rowGet r name).isSome = true := h r (List.mem_cons_self _ _)
    obtain ⟨v, hv⟩ := Option.isSome_iff_exists.mp hr
    obtain ⟨out, hout, hlen⟩ := ih fun r' hr' => h r' (List.mem_cons_of_mem _ hr')
    refine ⟨((side, v) :: (r.filter fun p => p.1 ≠ name).map
      fun p => (side ++ "." ++ p.1, p.2)) :: out, ?_, ?_⟩
    · simp [selectEdgeSide, selectEdgeSideRow, hv, hout]
    · simp [hlen]

theorem crossJoin_length (a b : PolarsFrame) :
    (crossJoin a b).length = a.length * b.length := by
  induction a with
  | nil => simp [crossJoin]
  | cons x t ih =>
    simp only [crossJoin, List.length_append, List.length_map, ih,
      List.length_cons, Nat.succ_mul]
    omega

theorem withColumnLit_length (df : PolarsFrame) (n : String) (v : PValue) :
    (withColumnLit df n v).length = df.length :=
  List.length_map df _

theorem mem_withColumnLit (df : PolarsFrame) (n : String) (v : PValue)
    (r : Row) (h : r ∈ withColumnLit df n v) : rowGet r n = some v := by
  obtain ⟨r0, -, rfl⟩ := List.mem_map.mp h
  exact rowGet_rowSet r0 n v

/-- C4: on a concrete node frame of `n` rows (each carrying the node-name
column of the schema), `fabric` succeeds and the result collects to exactly
`n * n` rows — one per ordered src/sink pair including self-pairs — every
one of which carries `MAX_CAPACITY` in the capacity column; `fabric` on the
`Empty` frame fails with an error. -/
theorem lazyFrame_fabric_complete_relation (nodes : PolarsFrame)
    (problem : ProblemSpec)
    (h : ∀ r ∈ nodes, (rowGet r problem.metadata.name).isSome = true) :
    isError (LazyFrame.fabric .empty problem) = true
    ∧ ∃ out : PolarsFrame,
        LazyFrame.fabric (.polars nodes) problem = .ok (.polars out)
        ∧ LazyFrame.collect (.polars out) = .ok (.polars out)
        ∧ out.length = nodes.length * nodes.length
        ∧ ∀ r ∈ out, rowGet r problem.metadata.capacity =
            some (.int ProblemSpec.MAX_CAPACITY) := by
  refine ⟨rfl, ?_⟩
  obtain ⟨a, ha, hla⟩ :=
    selectEdgeSide_ok nodes problem.metadata.name problem.metadata.src h
  obtain ⟨b, hb, hlb⟩ :=
    selectEdgeSide_ok nodes problem.metadata.name problem.metadata.sink h
  refine ⟨withColumnLit (crossJoin a b) problem.metadata.capacity
    (.int ProblemSpec.MAX_CAPACITY), ?_, rfl, ?_, ?_⟩
  · simp [LazyFrame.fabric, ha, hb]
  · rw [withColumnLit_length, crossJoin_length, hla, hlb]
  · intro r hr
    exact mem_withColumnLit _ _ _ r hr

/-- A concrete two-node frame under the standard schema. -/
def fabricNodesW : PolarsFrame := [[("name", .str "a")], [("name", .str "b")]]

/-- A concrete problem over the standard schema. -/
def fabricProblemW : ProblemSpec := ⟨GraphMetadata.standard, false⟩

/-- Witness for C4: the fabric of a concrete two-node frame has four rows,
each with capacity `MAX_CAPACITY`. -/
theorem lazyFrame_fabric_complete_relation_witness :
    (∀ r ∈ fabricNodesW, (rowGet r fabricProblemW.metadata.name).isSome = true)
    ∧ (isError (LazyFrame.fabric .empty fabricProblemW) = true
      ∧ ∃ out : PolarsFrame,
          LazyFrame.fabric (.polars fabricNodesW) fabricProblemW = .ok (.polars out)
          ∧ LazyFrame.collect (.polars out) = .ok (.polars out)
          ∧ out.length = fabricNodesW.length * fabricNodesW.length
          ∧ ∀ r ∈ out, rowGet r fabricProblemW.metadata.capacity =
              some (.int ProblemSpec.MAX_CAPACITY)) :=
  ⟨by decide,
    lazyFrame_fabric_complete_relation fabricNodesW fabricProblemW (by decide)⟩

/-- C10: `fill_column_with_value` on a concrete frame writes the supplied
number rounded to the nearest 64-bit integer (ties away from zero, the
`f64::round` semantics), so for a non-integer value the materialized column
holds the rounded integer, which differs from the original fractional value.
The range hypotheses state that the rounded value fits in `i64`, which holds
for every non-integer `f64` (any `f64` of magnitude at least `2^53` is an
integer). -/
theorem fill_column_with_value_rounds (df : PolarsFrame) (name : String)
    (v : Number) (h1 : v.into_inner.isInt = false)
    (h2 : -(2 ^ 63) < roundTiesAway v.into_inner)
    (h3 : roundTiesAway v.into_inner < 2 ^ 63) :
    ∃ out : PolarsFrame,
      LazyFrame.fill_column_with_value (.polars df) name v = .ok (.polars out)
      ∧ (∀ r ∈ out, rowGet r name = some (.int (roundTiesAway v.into_inner)))
      ∧ ((roundTiesAway v.into_inner : Rat) ≠ v.into_inner) := by
  have hsat : i64Sat (roundTiesAway v.into_inner) = roundTiesAway v.into_inner := by
    unfold i64Sat
    rw [min_eq_left (by omega), max_eq_right (by omega)]
  refine ⟨_, rfl, ?_, ?_⟩
  · intro r hr
    obtain ⟨r0, -, rfl⟩ := List.mem_map.mp hr
    show rowGet (rowSet r0 name (evalPExpr r0 v.into_polars)) name = _
    rw [rowGet_rowSet]
    show some (PValue.int (i64Sat (roundTiesAway v.into_inner))) = _
    rw [hsat]
  · intro hc
    have hden : v.into_inner.den = 1 := by
      rw [← hc]
      exact Rat.den_intCast _
    simp [Rat.isInt, hden] at h1

/-- The concrete non-integer number 5/2. -/
def numberW : Number := ⟨⟨5, 2, by decide, by decide⟩⟩

/-- A concrete one-row frame. -/
def frameW : PolarsFrame := [[("x", .int 0)]]

/-- Witness for C10: filling a column with 5/2 materializes the integer 3. -/
theorem fill_column_with_value_rounds_witness :
    (numberW.into_inner.isInt = false
      ∧ -(2 ^ 63) < roundTiesAway numberW.into_inner
      ∧ roundTiesAway numberW.into_inner < 2 ^ 63)
    ∧ ∃ out : PolarsFrame,
        LazyFrame.fill_column_with_value (.polars frameW) "flow" numberW =
          .ok (.polars out)
        ∧ (∀ r ∈ out, rowGet r "flow" =
            some (.int (roundTiesAway numberW.into_inner)))
        ∧ ((roundTiesAway numberW.into_inner : Rat) ≠ numberW.into_inner) :=
  ⟨⟨by decide, by decide, by decide⟩,
    fill_column_with_value_rounds frameW "flow" numberW
      (by decide) (by decide) (by decide)⟩

/-- Node key of the graph data model (api/src/graph.rs `NetworkNodeKey`):
kind, name and namespace of a resource node. -/
structure NetworkNodeKey where
  kind : String
  name : String
  «namespace» : String
deriving DecidableEq, Repr

/-- Edge key of the graph data model (api/src/graph.rs `NetworkEdgeKey`):
the observation interval plus the link, sink and src node keys. -/
structure NetworkEdgeKey where
  interval_ms : Nat
  link : NetworkNodeKey
  sink : NetworkNodeKey
  src : NetworkNodeKey
deriving DecidableEq, Repr

/-- Edge value of the graph data model (api/src/graph.rs `NetworkValue`): a
single non-negative integer weight. -/
structure NetworkValue where
  val : Nat
deriving DecidableEq, Repr

/-- A JSON scalar as produced by serializing an edge key: an unsigned
integer or a string. -/
inductive JValue where
  | num (n : Nat)
  | str (s : String)
deriving DecidableEq, Repr

/-- Serde serialization of a node key: fields in declaration order, names in
camelCase (already lowercase single words). -/
def serializeNodeKey (k : NetworkNodeKey) : List (String × JValue) :=
  [("kind", .str k.kind), ("name", .str k.name), ("namespace", .str k.«namespace»)]

/-- Prepend a role marker (the serde_with `with_prefix` wrapper of
api/src/graph.rs) to every field name of a flattened struct. -/
def withRole (role : String) (fs : List (String × JValue)) :
    List (String × JValue) :=
  fs.map fun p => (role ++ p.1, p.2)

/-- Serde serialization of an edge key as the flat record of
api/src/graph.rs: `interval_ms` renamed to `le`, then the three node keys
flattened under the `link_`, `sink_` and `src_` role markers, in
declaration order. -/
def serializeEdgeKey (k : NetworkEdgeKey) : List (String × JValue) :=
  ("le", .num k.interval_ms)
    :: (withRole "link_" (serializeNodeKey k.link)
      ++ withRole "sink_" (serializeNodeKey k.sink)
      ++ withRole "src_" (serializeNodeKey k.src))

/-- UTF-8 encoding of one character. -/
def utf8Bytes (c : Char) : List Nat :=
  let n := c.toNat
  if n < 128 then [n]
  else if n < 2048 then [192 + n / 64, 128 + n % 64]
  else if n < 65536 then [224 + n / 4096, 128 + n / 64 % 64, 128 + n % 64]
  else [240 + n / 262144, 128 + n / 4096 % 64, 128 + n / 64 % 64, 128 + n % 64]

/-- Lowercase hex digit for a nibble. -/
def hexDigitChar (n : Nat) : Char :=
  if n < 10 then Char.ofNat (48 + n) else Char.ofNat (87 + n)

/-- The serde_json escape of one character inside a JSON string: quote and
backslash escaped, the five short control escapes, `\u00XX` for the other
control characters, and raw UTF-8 for everything else. -/
def escapeChar (c : Char) : List Nat :=
  let n := c.toNat
  if n = 34 then [92, 34]
  else if n = 92 then [92, 92]
  else if n = 8 then [92, 98]
  else if n = 9 then [92, 116]
  else if n = 10 then [92, 110]
  else if n = 12 then [92, 102]
  else if n = 13 then [92, 114]
  else if n < 32 then
    [92, 117, 48, 48, (hexDigitChar (n / 16)).toNat, (hexDigitChar (n % 16)).toNat]
  else utf8Bytes c

/-- JSON string literal bytes: quoted and escaped. -/
def strBytes (s : String) : List Nat :=
  34 :: (s.data.map escapeChar).flatten ++ [34]

/-- Decimal digit bytes of a natural number (fuel-based so the kernel can
evaluate it). -/
def decDigitsAux : Nat → Nat → List Nat
  | 0, _ => []
  | fuel + 1, n => if n < 10 then [48 + n] else decDigitsAux fuel (n / 10) ++ [48 + n % 10]

/-- Decimal representation of a natural number, as ASCII bytes. -/
def decDigits (n : Nat) : List Nat := decDigitsAux (n + 1) n

/-- Bytes of one JSON scalar. -/
def jvalueBytes : JValue → List Nat
  | .num n => decDigits n
  | .str s => strBytes s

/-- Bytes of one JSON object field: quoted name, colon, value. -/
def fieldBytes (f : String × JValue) : List Nat :=
  strBytes f.1 ++ 58 :: jvalueBytes f.2

/-- Comma-separated concatenation. -/
def sepJoin : List (List Nat) → List Nat
  | [] => []
  | [x] => x
  | x :: y :: t => x ++ 44 :: sepJoin (y :: t)

/-- Bytes of a JSON object in compact serde_json form. -/
def jsonObjBytes (fs : List (String × JValue)) : List Nat :=
  123 :: sepJoin (fs.map fieldBytes) ++ [125]

/-- The canonical serialization hashed by `NetworkGraphRow::try_new`:
`serde_json::to_vec` of the flattened edge key. -/
def edgeKeyJsonBytes (k : NetworkEdgeKey) : List Nat :=
  jsonObjBytes (serializeEdgeKey k)

/-- Truncation to a 32-bit word. -/
def w32 (n : Nat) : Nat := n % 4294967296

/-- Rotate a 32-bit word right by `k`. -/
def rotr (k x : Nat) : Nat := w32 ((x >>> k) ||| (x <<< (32 - k)))

/-- SHA-256 big sigma-0. -/
def bigSigma0 (x : Nat) : Nat := rotr 2 x ^^^ rotr 13 x ^^^ rotr 22 x

/-- SHA-256 big sigma-1. -/
def bigSigma1 (x : Nat) : Nat := rotr 6 x ^^^ rotr 11 x ^^^ rotr 25 x

/-- SHA-256 small sigma-0. -/
def smallSigma0 (x : Nat) : Nat := rotr 7 x ^^^ rotr 18 x ^^^ (x >>> 3)

/-- SHA-256 small sigma-1. -/
def smallSigma1 (x : Nat) : Nat := rotr 17 x ^^^ rotr 19 x ^^^ (x >>> 10)

/-- SHA-256 choice function. -/
def chV (e f g : Nat) : Nat := (e &&& f) ^^^ ((e ^^^ 4294967295) &&& g)

/-- SHA-256 majority function. -/
def majV (a b c : Nat) : Nat := (a &&& b) ^^^ (a &&& c) ^^^ (b &&& c)

/-- The eight 32-bit words of a SHA-256 state. -/
structure Hash8 where
  a : Nat
  b : Nat
  c : Nat
  d : Nat
  e : Nat
  f : Nat
  g : Nat
  h : Nat

/-- SHA-256 initial state. -/
def initHash : Hash8 :=
  ⟨1779033703, 3144134277, 1013904242, 2773480762,
   1359893119, 2600822924, 528734635, 1541459225⟩

/-- SHA-256 round constants. -/
def K256 : List Nat :=
  [1116352408, 1899447441, 3049323471, 3921009573, 961987163,
   1508970993, 2453635748, 2870763221, 3624381080, 310598401,
   607225278, 1426881987, 1925078388, 2162078206, 2614888103,
   3248222580, 3835390401, 4022224774, 264347078, 604807628,
   770255983, 1249150122, 1555081692, 1996064986, 2554220882,
   2821834349, 2952996808, 3210313671, 3336571891, 3584528711,
   113926993, 338241895, 666307205, 773529912, 1294757372,
   1396182291, 1695183700, 1986661051, 2177026350, 2456956037,
   2730485921, 2820302411, 3259730800, 3345764771, 3516065817,
   3600352804, 4094571909, 275423344, 430227734, 506948616,
   659060556, 883997877, 958139571, 1322822218, 1537002063,
   1747873779, 1955562222, 2024104815, 2227730452, 2361852424,
   2428436474, 2756734187, 3204031479, 3329325298]

/-- Big-endian 8-byte encoding of the message bit length. -/
def lenBytes64 (n : Nat) : List Nat :=
  [(n >>> 56) % 256, (n >>> 48) % 256, (n >>> 40) % 256, (n >>> 32) % 256,
   (n >>> 24) % 256, (n >>> 16) % 256, (n >>> 8) % 256, n % 256]

/-- SHA-256 padding: a 1-bit, zeros to 56 mod 64, then the bit length. -/
def padMessage (msg : List Nat) : List Nat :=
  msg ++ 128 :: List.replicate ((119 - msg.length % 64) % 64) 0
    ++ lenBytes64 (8 * msg.length)

/-- Big-endian 32-bit words from bytes. -/
def toWords : List Nat → List Nat
  | b0 :: b1 :: b2 :: b3 :: rest =>
    ((b0 <<< 24) + (b1 <<< 16) + (b2 <<< 8) + b3) :: toWords rest
  | _ => []

/-- Split a byte list into 64-byte blocks (fuel-based recursion so the
kernel can evaluate it). -/
def chunksAux : Nat → List Nat → List (List Nat)
  | 0, _ => []
  | _ + 1, [] => []
  | fuel + 1, l => l.take 64 :: chunksAux fuel (l.drop 64)

/-- The 64-byte blocks of a padded message. -/
def chunks64 (l : List Nat) : List (List Nat) := chunksAux l.length l

/-- The next word of the SHA-256 message schedule. -/
def nextW (w : List Nat) : Nat :=
  let n := w.length
  w32 (smallSigma1 (w.getD (n - 2) 0) + w.getD (n - 7) 0
    + smallSigma0 (w.getD (n - 15) 0) + w.getD (n - 16) 0)

/-- Extend the message schedule by `k` words. -/
def extendW : List Nat → Nat → List Nat
  | w, 0 => w
  | w, k + 1 => extendW (w ++ [nextW w]) k

/-- The 64-word message schedule of one block. -/
def schedule (block : List Nat) : List Nat := extendW (toWords block) 48

/-- One SHA-256 compression round. -/
def roundStep (st : Hash8) (k w : Nat) : Hash8 :=
  let t1 := w32 (st.h + bigSigma1 st.e + chV st.e st.f st.g + k + w)
  let t2 := w32 (bigSigma0 st.a + majV st.a st.b st.c)
  ⟨w32 (t1 + t2), st.a, st.b, st.c, w32 (st.d + t1), st.e, st.f, st.g⟩

/-- Compress one 64-byte block into the running state. -/
def compressBlock (st : Hash8) (block : List Nat) : Hash8 :=
  let fin := (K256.zip (schedule block)).foldl
    (fun s kw => roundStep s kw.1 kw.2) st
  ⟨w32 (st.a + fin.a), w32 (st.b + fin.b), w32 (st.c + fin.c),
   w32 (st.d + fin.d), w32 (st.e + fin.e), w32 (st.f + fin.f),
   w32 (st.g + fin.g), w32 (st.h + fin.h)⟩

/-- The four big-endian bytes of a 32-bit word. -/
def wordBytes (w : Nat) : List Nat :=
  [(w >>> 24) % 256, (w >>> 16) % 256, (w >>> 8) % 256, w % 256]

/-- The 32 digest bytes of a final state. -/
def digestBytes (st : Hash8) : List Nat :=
  wordBytes st.a ++ wordBytes st.b ++ wordBytes st.c ++ wordBytes st.d
    ++ wordBytes st.e ++ wordBytes st.f ++ wordBytes st.g ++ wordBytes st.h

/-- SHA-256 of a byte list. -/
def sha256 (msg : List Nat) : List Nat :=
  digestBytes ((chunks64 (padMessage msg)).foldl compressBlock initHash)

/-- The two lowercase hex digits of a byte. -/
def hexByteChars (b : Nat) : List Char := [hexDigitChar (b / 16), hexDigitChar (b % 16)]

/-- Lowercase hex string of a byte list: Rust `format!` with the `x`
formatter over a digest. -/
def hexLower (bs : List Nat) : String := ⟨(bs.map hexByteChars).flatten⟩

/-- A graph row (api/src/graph.rs `NetworkGraphRow`): the content-derived
id, the edge key, and the weight. -/
structure NetworkGraphRow where
  id : String
  key : NetworkEdgeKey
  value : NetworkValue
deriving DecidableEq, Repr

/-- Mirror of `NetworkGraphRow::try_new` (api/src/graph.rs): the id is the
lowercase hex of the SHA-256 digest of the serde_json serialization of the
key. (Serialization of this flat record never fails, so the model always
returns ok.) -/
def NetworkGraphRow.try_new (key : NetworkEdgeKey) (value : NetworkValue) :
    Except String NetworkGraphRow :=
  .ok { id := hexLower (sha256 (edgeKeyJsonBytes key)), key := key, value := value }

/-- A lowercase hexadecimal character. -/
def isHexLower (c : Char) : Bool :=
  (48 ≤ c.toNat && c.toNat ≤ 57) || (97 ≤ c.toNat && c.toNat ≤ 102)

theorem wordBytes_lt (w : Nat) : ∀ b ∈ wordBytes w, b < 256 := by
  intro b hb
  simp only [wordBytes, List.mem_cons, List.not_mem_nil, or_false] at hb
  rcases hb with rfl | rfl | rfl | rfl <;> exact Nat.mod_lt _ (by norm_num)

theorem digestBytes_length (st : Hash8) : (digestBytes st).length = 32 := by
  simp [digestBytes, wordBytes]

theorem digestBytes_lt (st : Hash8) : ∀ b ∈ digestBytes st, b < 256 := by
  intro b hb
  simp only [digestBytes, List.mem_append] at hb
  rcases hb with ((((((h | h) | h) | h) | h) | h) | h) | h <;>
    exact wordBytes_lt _ b h

theorem sha256_length (msg : List Nat) : (sha256 msg).length = 32 :=
  digestBytes_length _

theorem sha256_lt (msg : List Nat) : ∀ b ∈ sha256 msg, b < 256 :=
  digestBytes_lt _

theorem hexDigitChar_valid : ∀ n < 16, isHexLower (hexDigitChar n) = true := by
  decide

theorem hexByteChars_valid (b : Nat) (hb : b < 256) :
    ∀ c ∈ hexByteChars b, isHexLower c = true := by
  intro c hc
  simp only [hexByteChars, List.mem_cons, List.not_mem_nil, or_false] at hc
  rcases hc with rfl | rfl
  · exact hexDigitChar_valid _ (Nat.div_lt_of_lt_mul (by omega))
  · exact hexDigitChar_valid _ (Nat.mod_lt _ (by norm_num))

theorem hexLower_length (bs : List Nat) :
    (hexLower bs).length = 2 * bs.length := by
  show ((bs.map hexByteChars).flatten).length = 2 * bs.length
  induction bs with
  | nil => rfl
  | cons b t ih =>
    simp only [List.map_cons, List.flatten_cons, List.length_append,
      List.length_cons, hexByteChars] at ih ⊢
    simp only [List.length_cons, List.length_nil] at ih ⊢
    omega

theorem hexLower_chars (bs : List Nat) (h : ∀ b ∈ bs, b < 256) :
    ∀ c ∈ (hexLower bs).data, isHexLower c = true := by
  show ∀ c ∈ (bs.map hexByteChars).flatten, isHexLower c = true
  intro c hc
  obtain ⟨l, hl, hcl⟩ := List.mem_flatten.mp hc
  obtain ⟨b, hb, rfl⟩ := List.mem_map.mp hl
  exact hexByteChars_valid b (h b hb) c hcl

set_option maxRecDepth 4000 in
theorem sha256_empty_vector : hexLower (sha256 []) =
    "e3b0c44298fc1c149afbf4c8996fb92427ae41e4649b934ca495991b7852b855" := by
  decide

set_option maxRecDepth 4000 in
theorem sha256_abc_vector : hexLower (sha256 [97, 98, 99]) =
    "ba7816bf8f01cfea414140de5dae2223b00361a396177a9cb410ff61f20015ad" := by
  decide

/-- C1: `NetworkGraphRow::try_new` sets the id to the lowercase hex of the
SHA-256 digest of the serialized key; field-wise equal keys always produce
identical ids (the id is a pure function of the key's content, so it cannot
depend on process, insertion order, or time), and the id is always exactly
64 characters, all lowercase hexadecimal. -/
theorem graphRow_id_content_addressed (k₁ k₂ : NetworkEdgeKey)
    (v₁ v₂ : NetworkValue) (hk : k₁ = k₂) :
    ∃ r₁ r₂ : NetworkGraphRow,
      NetworkGraphRow.try_new k₁ v₁ = .ok r₁
      ∧ NetworkGraphRow.try_new k₂ v₂ = .ok r₂
      ∧ r₁.id = r₂.id
      ∧ r₁.id = hexLower (sha256 (edgeKeyJsonBytes k₁))
      ∧ r₁.id.length = 64
      ∧ ∀ c ∈ r₁.id.data, isHexLower c = true := by
  subst hk
  refine ⟨_, _, rfl, rfl, rfl, rfl, ?_, ?_⟩
  · show (hexLower (sha256 (edgeKeyJsonBytes k₁))).length = 64
    rw [hexLower_length, sha256_length]
  · exact hexLower_chars _ (sha256_lt _)

/-- A concrete edge key. -/
def edgeKeyW : NetworkEdgeKey :=
  ⟨450, ⟨"Service", "gw", "default"⟩, ⟨"Node", "n1", "default"⟩,
   ⟨"Pod", "p0", "kube-system"⟩⟩

/-- Witness for C1 at a concrete edge key (under two different values). -/
theorem graphRow_id_content_addressed_witness :
    (edgeKeyW = edgeKeyW)
    ∧ ∃ r₁ r₂ : NetworkGraphRow,
        NetworkGraphRow.try_new edgeKeyW ⟨7⟩ = .ok r₁
        ∧ NetworkGraphRow.try_new edgeKeyW ⟨8⟩ = .ok r₂
        ∧ r₁.id = r₂.id
        ∧ r₁.id = hexLower (sha256 (edgeKeyJsonBytes edgeKeyW))
        ∧ r₁.id.length = 64
        ∧ ∀ c ∈ r₁.id.data, isHexLower c = true :=
  ⟨rfl, graphRow_id_content_addressed edgeKeyW edgeKeyW ⟨7⟩ ⟨8⟩ rfl⟩

/-- C8: an edge key serializes to a flat record with `interval_ms` under the
field name `le` and the three node keys flattened under the `link_`, `sink_`
and `src_` role markers applied to every node-key field, and the resulting
field names are pairwise distinct (no collisions). -/
theorem edgeKey_wire_format (k : NetworkEdgeKey) :
    serializeEdgeKey k =
      [("le", .num k.interval_ms),
       ("link_kind", .str k.link.kind), ("link_name", .str k.link.name),
       ("link_namespace", .str k.link.«namespace»),
       ("sink_kind", .str k.sink.kind), ("sink_name", .str k.sink.name),
       ("sink_namespace", .str k.sink.«namespace»),
       ("src_kind", .str k.src.kind), ("src_name", .str k.src.name),
       ("src_namespace", .str k.src.«namespace»)]
    ∧ ((serializeEdgeKey k).map Prod.fst).Nodup := by
  constructor
  · rfl
  · have hn : (serializeEdgeKey k).map Prod.fst =
        ["le", "link_kind", "link_name", "link_namespace", "sink_kind",
         "sink_name", "sink_namespace", "src_kind", "src_name",
         "src_namespace"] := rfl
    rw [hn]
    decide
